import Mathlib

/-!
Verification of the `misc-functions` astronomical utility library
(`functions_fits.py`, `functions_misc.py`).

Shallow embedding conventions:

* A FITS header is an association list of cards `(keyword, value)`, in card
  order.  `header[key]` reads the value of the first card with that keyword,
  `header[key] = v` updates the first such card in place (appending a new card
  when the keyword is absent), and `del header[key]` removes every card with
  that keyword — these are the astropy `Header` semantics used by the source.
  `header.keys()` returns the list of keywords (a snapshot list, as in the
  Python-2-era astropy the source is written against).
* A numpy floating-point value is `Option ℚ`: `none` is the NaN sentinel the
  library uses for invalid/masked samples, `some q` a finite value.  IEEE
  comparisons against NaN are false, `!=` against NaN is true, and arithmetic
  propagates NaN; the embedded operations below reproduce exactly that.
* A numpy 1D array is a `List` of such values; images/cubes are nested lists.
-/

namespace MiscFuncs

/-- A FITS header card value: an integer, a floating-point number (rational in
the embedding) or a string. -/
inductive HVal where
  | int (z : ℤ)
  | num (q : ℚ)
  | str (s : String)
deriving DecidableEq

/-- A FITS header: the ordered list of `(keyword, value)` cards. -/
abbrev Header := List (String × HVal)

/-- `header[key]`: value of the first card whose keyword is `key`
(`none` = `KeyError`). -/
def hget : Header → String → Option HVal
  | [], _ => none
  | (a, b) :: t, k => if a = k then some b else hget t k

/-- `header[key] = v`: update the first card with keyword `key` in place, or
append a new card when the keyword is absent (astropy `Header.__setitem__`). -/
def hset : Header → String → HVal → Header
  | [], k, v => [(k, v)]
  | (a, b) :: t, k, v => if a = k then (k, v) :: t else (a, b) :: hset t k v

/-- `del header[key]`: remove every card with keyword `key`
(astropy `Header.__delitem__` on a string key). -/
def hdel : Header → String → Header
  | [], _ => []
  | (a, b) :: t, k => if a = k then hdel t k else (a, b) :: hdel t k

/-- The header keywords used by the embedded functions (named constants so the
Lean text carries no inline string literals at call sites). -/
def kNAXIS : String := "NAXIS"

/-- Keyword `NAXIS3`. -/
def kNAXIS3 : String := "NAXIS3"

/-- Keyword `CDELT3`. -/
def kCDELT3 : String := "CDELT3"

/-- Keyword `CROTA3`. -/
def kCROTA3 : String := "CROTA3"

/-- Keyword `CRPIX3`. -/
def kCRPIX3 : String := "CRPIX3"

/-- Keyword `CRVAL3`. -/
def kCRVAL3 : String := "CRVAL3"

/-- Keyword `CTYPE3`. -/
def kCTYPE3 : String := "CTYPE3"

/-- Keyword `CUNIT3`. -/
def kCUNIT3 : String := "CUNIT3"

/-- Keyword `CRVAL3` lookup as a rational: accepts integer- or float-valued
cards (Python numeric polymorphism); a string-valued or absent card fails the
lookup-and-arithmetic path. -/
def HVal.toQ : HVal → Option ℚ
  | .int z => some (z : ℚ)
  | .num q => some q
  | .str _ => none

/-- Integer view of a card value (FITS `NAXIS3` cards are integers). -/
def HVal.toZ : HVal → Option ℤ
  | .int z => some z
  | .num _ => none
  | .str _ => none

/-- Numeric header lookup, `none` when the key is absent or non-numeric. -/
def getQ (h : Header) (k : String) : Option ℚ := (hget h k).bind HVal.toQ

/-- Integer header lookup, `none` when the key is absent or non-integer. -/
def getZ (h : Header) (k : String) : Option ℤ := (hget h k).bind HVal.toZ

/-- The list `keys_3D = ["NAXIS3","CDELT3","CROTA3","CRPIX3","CRVAL3","CTYPE3"]`
from `fheader_3Dto2D` (`functions_fits.py` line 458). -/
def keys3D : List String := [kNAXIS3, kCDELT3, kCROTA3, kCRPIX3, kCRVAL3, kCTYPE3]

/-- `fheader_3Dto2D` (`functions_fits.py` lines 440–467), the header transform
part (the file read and optional file write are elided):
snapshot `header_keys = header.keys()`, set `header["NAXIS"] = 2`, then for
each key of `keys_3D` present in the snapshot, `del header[key]`. -/
def fheader_3Dto2D (h : Header) : Header :=
  let header_keys := h.map Prod.fst
  let h1 := hset h kNAXIS (HVal.int 2)
  keys3D.foldl (fun acc key => if key ∈ header_keys then hdel acc key else acc) h1

/-- `ffreqaxis` (`functions_fits.py` lines 10–34), the header-to-axis part (the
file read is elided): read `CRVAL3`, `CRPIX3`, `CDELT3`, `NAXIS3` (a missing
key raises `KeyError`, embedded as `none`), build
`freqpixels = np.arange(NAXIS3) + 1` and return
`CRVAL3 + (freqpixels - CRPIX3) * CDELT3`. -/
def ffreqaxis (h : Header) : Option (List ℚ) := do
  let crval3 ← getQ h kCRVAL3
  let crpix3 ← getQ h kCRPIX3
  let cdelt3 ← getQ h kCDELT3
  let naxis3 ← getZ h kNAXIS3
  let freqpixels := (List.range naxis3.toNat).map (fun (i : ℕ) => (i : ℚ) + 1)
  return freqpixels.map (fun p => crval3 + (p - crpix3) * cdelt3)

/-- A numpy floating-point sample: `none` is NaN, `some q` a finite value. -/
abbrev NVal := Option ℚ

/-- Elementwise product `x * y`: NaN propagates (`NaN * v = NaN`). -/
def nmul : NVal → NVal → NVal
  | some x, some y => some (x * y)
  | _, _ => none

/-- Elementwise quotient `x / y`.  NaN propagates.  A zero divisor produces a
numpy `inf`/`nan` (with a warning, never an exception); it is mapped to the
invalid sentinel `none` here, and every theorem that depends on quotient
values assumes a nonzero divisor, where this model is exact. -/
def ndiv : NVal → NVal → NVal
  | some x, some y => if y = 0 then none else some (x / y)
  | _, _ => none

/-- IEEE comparison `x < q` against a finite scalar: false when `x` is NaN. -/
def nlt : NVal → ℚ → Bool
  | none, _ => false
  | some x, q => decide (x < q)

/-- IEEE comparison `x >= q` against a finite scalar: false when `x` is NaN. -/
def nge : NVal → ℚ → Bool
  | none, _ => false
  | some x, q => decide (q ≤ x)

/-- IEEE comparison `x != q` against a finite scalar: true when `x` is NaN. -/
def nne : NVal → ℚ → Bool
  | none, _ => true
  | some x, q => decide (x ≠ q)

/-- IEEE comparison `x == q` against a finite scalar: false when `x` is NaN. -/
def neqv : NVal → ℚ → Bool
  | none, _ => false
  | some x, q => decide (x = q)

/-- Elementwise `x - q` for a finite scalar `q`; NaN propagates. -/
def nsub (a : NVal) (q : ℚ) : NVal := a.map (fun x => x - q)

/-- `fmask_snr` (`functions_misc.py` lines 51–76):
`data_snr = data/noise`; `mask = np.ones(data.shape)`;
`mask[np.where(data_snr < snr)] = np.nan`; `data_clean = data*mask`;
returns `(mask, data_clean)`.  `noise` is an array already broadcast to
`data`'s shape (a scalar noise is `List.replicate data.length`). -/
def fmask_snr (data noise : List NVal) (snr : ℚ) : List NVal × List NVal :=
  let data_snr := List.zipWith ndiv data noise
  let mask := data_snr.map (fun s => if nlt s snr then (none : NVal) else some 1)
  let data_clean := List.zipWith nmul data mask
  (mask, data_clean)

/-- `fmask_signal` (`functions_misc.py` lines 78–99):
`mask = np.ones(data.shape)`; `mask[np.where(data < signal)] = np.nan`;
`data_clean = data*mask`; returns `(mask, data_clean)`. -/
def fmask_signal (data : List NVal) (sig : ℚ) : List NVal × List NVal :=
  let mask := data.map (fun d => if nlt d sig then (none : NVal) else some 1)
  let data_clean := List.zipWith nmul data mask
  (mask, data_clean)

/-- `fmaptheta_halfpolar` (`functions_misc.py` lines 101–124).  Two sequential
in-place fancy-index updates on the input array:
with `deg == False`, `angles[(angles >= 1.) & (angles != 2.)] -= 1.` then
`angles[angles == 2.] -= 2.`; with `deg == True` the same with `180.`/`360.`.
The returned list is the content of the (mutated) input array. -/
def fmaptheta_halfpolar (angles : List NVal) (deg : Bool) : List NVal :=
  match deg with
  | false =>
    let a1 := angles.map (fun a => if nge a 1 && nne a 2 then nsub a 1 else a)
    a1.map (fun a => if neqv a 2 then nsub a 2 else a)
  | true =>
    let a1 := angles.map (fun a => if nge a 180 && nne a 360 then nsub a 180 else a)
    a1.map (fun a => if neqv a 360 then nsub a 360 else a)

/-- `np.nanmean` over one pixel's samples: mean of the non-NaN samples, NaN
when every sample is NaN (numpy then warns and returns NaN). -/
def nanmean (xs : List NVal) : NVal :=
  let vs := xs.filterMap id
  if vs.isEmpty then none else some (vs.sum / (vs.length : ℚ))

/-- `fcubeavg` (`functions_fits.py` lines 36–57), file I/O elided:
`data_avg = np.nanmean(data_cube, axis=0)` together with
`header_avg = fheader_3Dto2D(...)` on the cube's header.  The cube is a list
of planes along axis 0, each plane a (flattened, row-major) list of pixels;
pixel `p` of the average is the nanmean of sample `p` of every plane. -/
def fcubeavg (cube : List (List NVal)) (h : Header) : List NVal × Header :=
  ((List.range (cube.headD []).length).map
      (fun p => nanmean (cube.map (fun plane => plane.getD p none))),
   fheader_3Dto2D h)

/-- The method string `"scipy"`. -/
def kScipy : String := "scipy"

/-- The method string `"astropy"`. -/
def kAstropy : String := "astropy"

/-- `np.sqrt` on a finite scalar: on a negative argument it issues a
`RuntimeWarning` and returns NaN — it never raises.  The result of
`np.sqrt x` for `x ≥ 0` is represented by its square `x` (the value feeds the
pipeline only as a scale whose exact magnitude no claim depends on, and the
square is the exact rational representative).  The `Except` layer carries a
raised Python exception; `np.sqrt` always returns `Except.ok`. -/
def npSqrt_sq (x : ℚ) : Except String (Option ℚ) :=
  if x < 0 then Except.ok none else Except.ok (some x)

/-- The kernel-size computation of `fconvolve` (`functions_misc.py` lines
28–33), squared representation:
`oldres_sigma = oldres/(2*np.sqrt(2*np.log(2)))` and likewise for `newres`,
so `oldres_sigma**2 = oldres^2/c2` with `c2 = 8*log 2 > 0` (the positive
irrational constant `(2*sqrt(2*log 2))^2`, passed as a parameter since it is
not rational; every theorem holds for all positive `c2`);
`kernel_arcmin = np.sqrt(newres_sigma**2 - oldres_sigma**2)`;
`pixelsize = CDELT2*60`; `kernelsize = kernel_arcmin/pixelsize`.
Returns the square of `kernelsize` (`none` = NaN) or a raised exception. -/
def fconvolve_kernelsize_sq (c2 oldres newres cdelt2 : ℚ) :
    Except String (Option ℚ) :=
  let oldres_sigma_sq := oldres ^ 2 / c2
  let newres_sigma_sq := newres ^ 2 / c2
  match npSqrt_sq (newres_sigma_sq - oldres_sigma_sq) with
  | Except.error e => Except.error e
  | Except.ok kernel_arcmin_sq =>
    let pixelsize := cdelt2 * 60
    Except.ok (kernel_arcmin_sq.map (fun s => s / pixelsize ^ 2))

/-- Post-call content of the input buffer `angles` of `fmaptheta_halfpolar`:
both updates (`angles[...] -= ...`) write into the input array itself and the
function returns that same array, so the buffer ends up holding exactly the
returned values. -/
def fmaptheta_halfpolar_post (angles : List NVal) (deg : Bool) : List NVal :=
  fmaptheta_halfpolar angles deg

/-- Post-call content of the input buffer `data` of `fmask_snr`
(`functions_misc.py` lines 51–76): the body only reads `data`; the single
subscript assignment targets the freshly allocated `mask` (`np.ones`), and
`data/noise`, `data*mask` allocate new arrays. -/
def fmask_snr_post (data noise : List NVal) (snr : ℚ) : List NVal :=
  let _ := noise
  let _ := snr
  data

/-- Post-call content of the input buffer `data` of `fmask_signal`
(`functions_misc.py` lines 78–99): as in `fmask_snr`, the only subscript
assignment targets the fresh `mask`. -/
def fmask_signal_post (data : List NVal) (sig : ℚ) : List NVal :=
  let _ := sig
  data

/-- Post-call content of the input buffer `image` of `fgradient`
(`functions_misc.py` lines 126–143): `np.gradient`, `**` and `np.sqrt` all
allocate fresh arrays; `image` is only read. -/
def fgradient_post (image : List (List NVal)) : List (List NVal) := image

/-- Post-call content of the input buffers `(image, mask)` of `fmaskinterp`
(`functions_misc.py` lines 145–173): the body only reads them (boolean
indexing and `griddata` allocate fresh arrays). -/
def fmaskinterp_post (image mask : List (List NVal)) :
    List (List NVal) × List (List NVal) :=
  (image, mask)

/-- Post-call content of the input buffer `data` of `fconvolve`
(`functions_misc.py` lines 43–45): under `method == "scipy"` the statement
`data[np.isnan(data)] = 0.0` overwrites every NaN entry of the input array
with 0 in place; under any other method the input array is not written. -/
def fconvolve_data_post (data : List (List NVal)) (method : String) :
    List (List NVal) :=
  if method = kScipy then
    data.map (List.map (fun v => if v = none then some (0 : ℚ) else v))
  else data

section HeaderLemmas

theorem hget_hset_eq (h : Header) (k : String) (v : HVal) :
    hget (hset h k v) k = some v := by
  induction h with
  | nil => simp [hset, hget]
  | cons a t ih =>
    obtain ⟨a1, a2⟩ := a
    by_cases hak : a1 = k
    · simp [hset, hak, hget]
    · simp [hset, hak, hget, ih]

theorem hget_hset_ne (h : Header) (k k' : String) (v : HVal) (hne : k ≠ k') :
    hget (hset h k' v) k = hget h k := by
  have hne' : ¬ (k' = k) := fun he => hne he.symm
  induction h with
  | nil => simp [hset, hget, hne']
  | cons a t ih =>
    obtain ⟨a1, a2⟩ := a
    by_cases hak : a1 = k'
    · rw [show hset ((a1, a2) :: t) k' v = (k', v) :: t from by simp [hset, hak]]
      have hak' : ¬ (a1 = k) := fun he => hne' (hak ▸ he)
      simp [hget, hne', hak']
    · rw [show hset ((a1, a2) :: t) k' v = (a1, a2) :: hset t k' v from by
        simp [hset, hak]]
      by_cases hk : a1 = k <;> simp [hget, hk, ih]

theorem hset_self (h : Header) (k : String) (v : HVal) (hh : hget h k = some v) :
    hset h k v = h := by
  induction h with
  | nil => simp [hget] at hh
  | cons a t ih =>
    obtain ⟨a1, a2⟩ := a
    by_cases hak : a1 = k
    · subst hak
      simp [hget] at hh
      simp [hset, hh]
    · simp [hget, hak] at hh
      simp [hset, hak, ih hh]

theorem hget_hdel_self (h : Header) (k : String) : hget (hdel h k) k = none := by
  induction h with
  | nil => simp [hdel, hget]
  | cons a t ih =>
    obtain ⟨a1, a2⟩ := a
    by_cases hak : a1 = k <;> simp [hdel, hak, hget, ih]

theorem hget_hdel_ne (h : Header) (k k' : String) (hne : k ≠ k') :
    hget (hdel h k') k = hget h k := by
  have hne' : ¬ (k' = k) := fun he => hne he.symm
  induction h with
  | nil => simp [hdel]
  | cons a t ih =>
    obtain ⟨a1, a2⟩ := a
    by_cases hak : a1 = k'
    · have hak' : ¬ (a1 = k) := fun he => hne' (hak ▸ he)
      simp [hdel, hak, hget, hak', hne', ih]
    · by_cases hk : a1 = k <;> simp [hdel, hak, hget, hk, ih, hne]

theorem hget_eq_none_of_not_mem (h : Header) (k : String)
    (hk : k ∉ h.map Prod.fst) : hget h k = none := by
  induction h with
  | nil => simp [hget]
  | cons a t ih =>
    obtain ⟨a1, a2⟩ := a
    simp only [List.map_cons, List.mem_cons] at hk
    push_neg at hk
    have h1 : ¬ (a1 = k) := fun he => hk.1 he.symm
    simp [hget, h1, ih hk.2]

theorem not_mem_of_hget_eq_none (h : Header) (k : String)
    (hk : hget h k = none) : k ∉ h.map Prod.fst := by
  induction h with
  | nil => simp
  | cons a t ih =>
    obtain ⟨a1, a2⟩ := a
    by_cases hak : a1 = k
    · simp [hget, hak] at hk
    · simp only [hget, hak, if_false] at hk
      have hka : ¬ (k = a1) := fun he => hak he.symm
      simp [hka, ih hk]

/-- Effect of the `for key in keys_3D: if key in header_keys: del header[key]`
loop on a later lookup: a key that is both in the loop's key list and in the
snapshot comes out deleted; any other key is untouched. -/
theorem hget_foldl_del (ks : List String) (snap : List String) (h0 : Header)
    (k : String) :
    hget (ks.foldl (fun acc key => if key ∈ snap then hdel acc key else acc) h0) k
      = if k ∈ ks ∧ k ∈ snap then none else hget h0 k := by
  induction ks generalizing h0 with
  | nil => simp
  | cons a t ih =>
    simp only [List.foldl_cons, ih]
    by_cases hkt : k ∈ t ∧ k ∈ snap
    · simp [hkt, List.mem_cons, hkt.1, hkt.2]
    · rw [if_neg hkt]
      by_cases hka : k = a
      · subst hka
        by_cases hks : k ∈ snap
        · simp [hks, hget_hdel_self]
        · simp [hks, hkt]
      · have hniff : ¬ (k ∈ a :: t ∧ k ∈ snap) := by
          intro hc
          exact hkt ⟨(List.mem_cons.mp hc.1).resolve_left hka, hc.2⟩
        rw [if_neg hniff]
        by_cases has : a ∈ snap
        · simp [has, hget_hdel_ne _ _ _ hka]
        · simp [has]

/-- The deletion loop is the identity when none of the loop's keys appears in
the snapshot. -/
theorem foldl_del_id (ks : List String) (snap : List String) (h0 : Header)
    (hk : ∀ a ∈ ks, a ∉ snap) :
    ks.foldl (fun acc key => if key ∈ snap then hdel acc key else acc) h0 = h0 := by
  induction ks generalizing h0 with
  | nil => rfl
  | cons a t ih =>
    simp only [List.foldl_cons]
    rw [if_neg (hk a (List.mem_cons_self a t))]
    exact ih h0 (fun b hb => hk b (List.mem_cons_of_mem a hb))

theorem kNAXIS_not_mem_keys3D : kNAXIS ∉ keys3D := by decide

/-- Lookup characterization of `fheader_3Dto2D`: every keyword of `keys_3D` is
gone from the result; every other keyword reads as in the input header after
the `NAXIS := 2` update. -/
theorem hget_fheader_3Dto2D (h : Header) (k : String) :
    hget (fheader_3Dto2D h) k
      = if k ∈ keys3D then none else hget (hset h kNAXIS (HVal.int 2)) k := by
  unfold fheader_3Dto2D
  rw [hget_foldl_del]
  by_cases hk3 : k ∈ keys3D
  · rw [if_pos hk3]
    by_cases hks : k ∈ h.map Prod.fst
    · simp [hk3, hks]
    · rw [if_neg (by simp [hks])]
      have hkn : k ≠ kNAXIS := by
        intro he
        exact kNAXIS_not_mem_keys3D (he ▸ hk3)
      rw [hget_hset_ne _ _ _ _ hkn]
      exact hget_eq_none_of_not_mem h k hks
  · simp [hk3]

end HeaderLemmas

/-- C4, counterexample: the claim says the result of `fheader_3Dto2D` carries
no axis-3 keyword at all, `CUNIT3` included.  On a header carrying a `CUNIT3`
card the function returns a header that still carries it: the deletion loop
only covers `NAXIS3, CDELT3, CROTA3, CRPIX3, CRVAL3, CTYPE3`. -/
theorem fheader_3Dto2D_keeps_cunit3 :
    hget (fheader_3Dto2D
        [(kNAXIS, HVal.int 3), (kNAXIS3, HVal.int 5), (kCUNIT3, HVal.num 1)])
        kCUNIT3
      = some (HVal.num 1) := by decide

/-- C4 (amended): for every input header, the header returned by
`fheader_3Dto2D` has `NAXIS` set to 2 and carries none of the six axis-3
keywords `NAXIS3`, `CDELT3`, `CROTA3`, `CRPIX3`, `CRVAL3`, `CTYPE3`; other
axis-3 keywords (e.g. `CUNIT3`) are not removed. -/
theorem fheader_3Dto2D_amended (h : Header) :
    hget (fheader_3Dto2D h) kNAXIS = some (HVal.int 2)
    ∧ hget (fheader_3Dto2D h) kNAXIS3 = none
    ∧ hget (fheader_3Dto2D h) kCDELT3 = none
    ∧ hget (fheader_3Dto2D h) kCROTA3 = none
    ∧ hget (fheader_3Dto2D h) kCRPIX3 = none
    ∧ hget (fheader_3Dto2D h) kCRVAL3 = none
    ∧ hget (fheader_3Dto2D h) kCTYPE3 = none := by
  refine ⟨?_, ?_, ?_, ?_, ?_, ?_, ?_⟩ <;> rw [hget_fheader_3Dto2D]
  · rw [if_neg (by decide)]
    exact hget_hset_eq h kNAXIS (HVal.int 2)
  all_goals rw [if_pos (by decide)]

/-- C6: `fheader_3Dto2D` is idempotent: a second application finds `NAXIS`
already equal to 2 and none of the six axis-3 keys present, so it changes
nothing. -/
theorem fheader_3Dto2D_idempotent (h : Header) :
    fheader_3Dto2D (fheader_3Dto2D h) = fheader_3Dto2D h := by
  have hnax : hget (fheader_3Dto2D h) kNAXIS = some (HVal.int 2) := by
    rw [hget_fheader_3Dto2D, if_neg (by decide)]
    exact hget_hset_eq h kNAXIS (HVal.int 2)
  have hunfold : fheader_3Dto2D (fheader_3Dto2D h)
      = keys3D.foldl
          (fun acc key =>
            if key ∈ (fheader_3Dto2D h).map Prod.fst then hdel acc key else acc)
          (hset (fheader_3Dto2D h) kNAXIS (HVal.int 2)) := rfl
  rw [hunfold, hset_self _ _ _ hnax]
  apply foldl_del_id
  intro a ha
  apply not_mem_of_hget_eq_none
  rw [hget_fheader_3Dto2D, if_pos ha]

/-- Element `i` of `(List.range n).map f`, for `i < n`. -/
theorem range_map_getD {α : Type} [Inhabited α] (f : ℕ → α) (n i : ℕ)
    (hi : i < n) (d : α) : ((List.range n).map f).getD i d = f i := by
  rw [List.getD_eq_getElem?_getD, List.getElem?_map, List.getElem?_range hi]
  rfl

/-- C5: with the four keywords `CRVAL3`, `CRPIX3`, `CDELT3`, `NAXIS3` present,
`ffreqaxis` returns the axis `axis[i] = CRVAL3 + ((i+1) - CRPIX3) * CDELT3`
of length `NAXIS3`, with `axis[CRPIX3-1] = CRVAL3` whenever `CRPIX3` is an
integer in `[1, NAXIS3]`; and on any header missing one of the four keywords
it fails (propagated `KeyError`, embedded as `none`). -/
theorem ffreqaxis_spec (h : Header) (crval3 crpix3 cdelt3 : ℚ) (n : ℕ)
    (h1 : getQ h kCRVAL3 = some crval3) (h2 : getQ h kCRPIX3 = some crpix3)
    (h3 : getQ h kCDELT3 = some cdelt3) (h4 : getZ h kNAXIS3 = some (n : ℤ)) :
    ∃ axis : List ℚ,
      ffreqaxis h = some axis
      ∧ axis.length = n
      ∧ (∀ i : ℕ, i < n →
          axis.getD i 0 = crval3 + (((i : ℚ) + 1) - crpix3) * cdelt3)
      ∧ (∀ k : ℕ, crpix3 = (k : ℚ) → 1 ≤ k → k ≤ n →
          axis.getD (k - 1) 0 = crval3)
      ∧ (∀ h' : Header,
          (getQ h' kCRVAL3 = none ∨ getQ h' kCRPIX3 = none
            ∨ getQ h' kCDELT3 = none ∨ getZ h' kNAXIS3 = none) →
          ffreqaxis h' = none) := by
  refine ⟨((List.range n).map (fun (i : ℕ) => (i : ℚ) + 1)).map
      (fun p => crval3 + (p - crpix3) * cdelt3), ?_, ?_, ?_, ?_, ?_⟩
  · simp [ffreqaxis, h1, h2, h3, h4]
  · rw [List.length_map, List.length_map, List.length_range]
  · intro i hi
    rw [List.map_map]
    exact range_map_getD _ n i hi 0
  · intro k hk hk1 hkn
    have hlt : k - 1 < n := by omega
    rw [List.map_map, range_map_getD
      ((fun p => crval3 + (p - crpix3) * cdelt3) ∘ (fun (i : ℕ) => (i : ℚ) + 1))
      n (k - 1) hlt 0]
    have hcast : ((k - 1 : ℕ) : ℚ) + 1 = (k : ℚ) := by
      rw [Nat.cast_sub hk1]
      ring
    show crval3 + ((((k - 1 : ℕ) : ℚ) + 1) - crpix3) * cdelt3 = crval3
    rw [hcast, hk]
    ring
  · intro h' hmiss
    rcases hmiss with hm | hm | hm | hm
    · simp [ffreqaxis, hm]
    · cases hv : getQ h' kCRVAL3 <;> simp [ffreqaxis, hv, hm]
    · cases hv : getQ h' kCRVAL3 <;> cases hp : getQ h' kCRPIX3 <;>
        simp [ffreqaxis, hv, hp, hm]
    · cases hv : getQ h' kCRVAL3 <;> cases hp : getQ h' kCRPIX3 <;>
        cases hd : getQ h' kCDELT3 <;> simp [ffreqaxis, hv, hp, hd, hm]

/-- C5, witness: a concrete header with `CRVAL3 = 10`, `CRPIX3 = 1`,
`CDELT3 = 2`, `NAXIS3 = 3`. -/
theorem ffreqaxis_spec_w :
    (getQ [(kCRVAL3, HVal.num 10), (kCRPIX3, HVal.num 1), (kCDELT3, HVal.num 2),
        (kNAXIS3, HVal.int 3)] kCRVAL3 = some 10
      ∧ getQ [(kCRVAL3, HVal.num 10), (kCRPIX3, HVal.num 1), (kCDELT3, HVal.num 2),
        (kNAXIS3, HVal.int 3)] kCRPIX3 = some 1
      ∧ getQ [(kCRVAL3, HVal.num 10), (kCRPIX3, HVal.num 1), (kCDELT3, HVal.num 2),
        (kNAXIS3, HVal.int 3)] kCDELT3 = some 2
      ∧ getZ [(kCRVAL3, HVal.num 10), (kCRPIX3, HVal.num 1), (kCDELT3, HVal.num 2),
        (kNAXIS3, HVal.int 3)] kNAXIS3 = some ((3 : ℕ) : ℤ))
    ∧ ∃ axis : List ℚ,
        ffreqaxis [(kCRVAL3, HVal.num 10), (kCRPIX3, HVal.num 1),
          (kCDELT3, HVal.num 2), (kNAXIS3, HVal.int 3)] = some axis
        ∧ axis.length = 3
        ∧ (∀ i : ℕ, i < 3 →
            axis.getD i 0 = 10 + (((i : ℚ) + 1) - 1) * 2)
        ∧ (∀ k : ℕ, (1 : ℚ) = (k : ℚ) → 1 ≤ k → k ≤ 3 →
            axis.getD (k - 1) 0 = 10)
        ∧ (∀ h' : Header,
            (getQ h' kCRVAL3 = none ∨ getQ h' kCRPIX3 = none
              ∨ getQ h' kCDELT3 = none ∨ getZ h' kNAXIS3 = none) →
            ffreqaxis h' = none) :=
  ⟨⟨by decide, by decide, by decide, by decide⟩,
    ffreqaxis_spec _ 10 1 2 3 (by decide) (by decide) (by decide) (by decide)⟩

/-- C7: with `noise` broadcast to `data`'s shape and every noise sample finite
and nonzero (the regime in which the rational division model is exact),
`fmask_snr` returns a mask that is NaN exactly where `data[p]/noise[p] < snr`
(IEEE semantics: false, hence mask 1, when the quotient is NaN) and 1
elsewhere, and the clipped data is the elementwise product `data * mask`; on
`data = [1,5,10]`, `noise = 1`, `snr = 3` it yields `mask = [NaN,1,1]` and
`clipped = [NaN,5,10]`. -/
theorem fmask_snr_spec (data noise : List NVal) (snr : ℚ)
    (hlen : noise.length = data.length)
    (_hnz : ∀ v ∈ noise, v ≠ none ∧ v ≠ some 0) :
    (fmask_snr data noise snr).1.length = data.length
    ∧ (∀ p : ℕ, ∀ x y : NVal, data.get? p = some x → noise.get? p = some y →
        (fmask_snr data noise snr).1.get? p
          = some (if nlt (ndiv x y) snr then (none : NVal) else some 1))
    ∧ (fmask_snr data noise snr).2
        = List.zipWith nmul data (fmask_snr data noise snr).1
    ∧ fmask_snr [some 1, some 5, some 10] (List.replicate 3 (some 1)) 3
        = ([none, some 1, some 1], [none, some 5, some 10]) := by
  refine ⟨?_, ?_, rfl,
    by norm_num [fmask_snr, ndiv, nlt, nmul, List.replicate]⟩
  · show ((List.zipWith ndiv data noise).map _).length = data.length
    rw [List.length_map, List.length_zipWith, hlen, Nat.min_self]
  · intro p x y hx hy
    rw [List.get?_eq_getElem?] at hx hy
    show ((List.zipWith ndiv data noise).map _).get? p = _
    rw [List.get?_eq_getElem?, List.getElem?_map, List.getElem?_zipWith, hx, hy]
    rfl

/-- C7, witness: the theorem at `data = [1,5,10]`, `noise = [1,1,1]`,
`snr = 3`. -/
theorem fmask_snr_spec_w :
    ((List.replicate 3 (some (1 : ℚ))).length
        = [some (1 : ℚ), some 5, some 10].length
      ∧ ∀ v ∈ List.replicate 3 (some (1 : ℚ)), v ≠ none ∧ v ≠ some 0)
    ∧ fmask_snr [some 1, some 5, some 10] (List.replicate 3 (some 1)) 3
        = ([none, some 1, some 1], [none, some 5, some 10]) :=
  ⟨⟨by decide, by decide⟩,
    (fmask_snr_spec [some 1, some 5, some 10] (List.replicate 3 (some 1)) 3
      (by decide) (by decide)).2.2.2⟩

/-- Dividing elementwise by a same-length array of ones is the identity. -/
theorem zipWith_ndiv_ones (data : List NVal) :
    List.zipWith ndiv data (List.replicate data.length (some 1)) = data := by
  induction data with
  | nil => rfl
  | cons a t ih =>
    rw [List.length_cons, List.replicate_succ, List.zipWith_cons_cons, ih]
    cases a with
    | none => rfl
    | some x => simp [ndiv]

/-- C10: `fmask_signal data t` returns exactly the `(mask, clipped)` pair of
`fmask_snr data noise t` with unit noise (`noise = 1` broadcast over `data`):
signal thresholding is the `noise = 1` special case of S/N thresholding. -/
theorem fmask_signal_eq_fmask_snr (data : List NVal) (t : ℚ) :
    fmask_signal data t
      = fmask_snr data (List.replicate data.length (some 1)) t := by
  unfold fmask_signal fmask_snr
  rw [zipWith_ndiv_ones]

/-- C9: the spec's radians-normalized test vector for `fmaptheta_halfpolar`
with `deg = False`: 2.0 maps to 0.0, 1.5 maps to 0.5, and 0.5 is returned
unchanged. -/
theorem fmaptheta_halfpolar_testcases :
    fmaptheta_halfpolar [some 2] false = [some 0]
    ∧ fmaptheta_halfpolar [some (3 / 2)] false = [some (1 / 2)]
    ∧ fmaptheta_halfpolar [some (1 / 2)] false = [some (1 / 2)] := by
  norm_num [fmaptheta_halfpolar, nge, nne, neqv, nsub]

/-- C2, evaluation at the failing input: the `deg = False` branch compares
angles against the literals 1.0 and 2.0, not π and 2π, so the radian angle
1.5 — inside [0, π), which the claim (and the function's own docstring and
comments, which promise the [0,2π) → [0,π) radian mapping) says is left
unchanged — comes back as 0.5. -/
theorem fmaptheta_halfpolar_radian_bug :
    fmaptheta_halfpolar [some (3 / 2)] false = [some (1 / 2)] := by
  norm_num [fmaptheta_halfpolar, nge, nne, neqv, nsub]

/-- C3, counterexample: `fmaptheta_halfpolar` performs its subtraction in
place on the input array (`angles[...] -= ...`), so after the call the
caller's angle buffer no longer holds its original content — a mutation of an
input entity by a function other than `fconvolve`'s NaN overwrite. -/
theorem fmaptheta_halfpolar_mutates :
    fmaptheta_halfpolar_post [some (3 / 2)] false ≠ [some (3 / 2)] := by
  norm_num [fmaptheta_halfpolar_post, fmaptheta_halfpolar, nge, nne, neqv, nsub]

/-- C3 (amended): no function mutates its input entities in place except the
documented NaN-to-0 overwrite in `fconvolve` under `method="scipy"` and
`fmaptheta_halfpolar`, which applies its angle mapping in place to the input
array (and returns that same array): `fmask_snr`, `fmask_signal`,
`fgradient` and `fmaskinterp` leave their input buffers unchanged, and
`fconvolve` leaves `data` unchanged under `method="astropy"`. -/
theorem frame_effects_amended :
    (∀ (data noise : List NVal) (snr : ℚ), fmask_snr_post data noise snr = data)
    ∧ (∀ (data : List NVal) (sig : ℚ), fmask_signal_post data sig = data)
    ∧ (∀ image : List (List NVal), fgradient_post image = image)
    ∧ (∀ image mask : List (List NVal),
        fmaskinterp_post image mask = (image, mask))
    ∧ (∀ data : List (List NVal), fconvolve_data_post data kAstropy = data)
    ∧ (∀ data : List (List NVal),
        fconvolve_data_post data kScipy
          = data.map (List.map (fun v => if v = none then some (0 : ℚ) else v)))
    ∧ (∀ (angles : List NVal) (deg : Bool),
        fmaptheta_halfpolar_post angles deg = fmaptheta_halfpolar angles deg) := by
  refine ⟨fun _ _ _ => rfl, fun _ _ => rfl, fun _ => rfl, fun _ _ => rfl,
    ?_, ?_, fun _ _ => rfl⟩
  · intro data
    rw [fconvolve_data_post, if_neg (by decide)]
  · intro data
    rw [fconvolve_data_post, if_pos rfl]

/-- C8: `fcubeavg` computes at every pixel the NaN-aware mean along axis 0:
pixel `p` of the average is `nanmean` of the samples at `p` across the
planes; `nanmean` ignores NaN samples entirely (a leading NaN never changes
the result) and is NaN exactly when every sample is NaN; the samples
`[1.0, NaN, 3.0]` average to 2.0; and the returned header is the
`fheader_3Dto2D` reduction. -/
theorem fcubeavg_spec (cube : List (List NVal)) (h : Header) (p : ℕ)
    (hp : p < (cube.headD []).length) :
    (fcubeavg cube h).1.get? p
        = some (nanmean (cube.map (fun plane => plane.getD p none)))
    ∧ (∀ xs : List NVal, (nanmean xs = none ↔ ∀ x ∈ xs, x = none))
    ∧ (∀ xs : List NVal, nanmean (none :: xs) = nanmean xs)
    ∧ nanmean [some 1, none, some 3] = some 2
    ∧ (fcubeavg [[some 1], [none], [some 3]] h).1 = [some 2]
    ∧ (fcubeavg cube h).2 = fheader_3Dto2D h := by
  have hnm : nanmean [some 1, none, some 3] = some 2 := by
    norm_num [nanmean, List.filterMap_cons]
  refine ⟨?_, ?_, ?_, hnm, ?_, rfl⟩
  · show ((List.range (cube.headD []).length).map _).get? p = _
    rw [List.get?_eq_getElem?, List.getElem?_map, List.getElem?_range hp]
    rfl
  · intro xs
    have hiff : xs.filterMap id = [] ↔ ∀ x ∈ xs, x = none :=
      List.filterMap_eq_nil_iff
    constructor
    · intro hn
      rw [← hiff]
      by_contra hne
      have hfalse : (xs.filterMap id).isEmpty = false := by
        cases hfe : xs.filterMap id with
        | nil => exact absurd hfe hne
        | cons a t => rfl
      rw [nanmean] at hn
      simp only [hfalse] at hn
      exact absurd hn (by simp)
    · intro hall
      have h0 : xs.filterMap id = [] := hiff.mpr hall
      simp [nanmean, h0]
  · intro xs
    have hcons : (none :: xs).filterMap id = xs.filterMap id :=
      List.filterMap_cons_none rfl
    rw [nanmean, nanmean, hcons]
  · have hred : (fcubeavg [[some 1], [none], [some 3]] h).1
        = [nanmean [some 1, none, some 3]] := by
      simp [fcubeavg, List.range_succ]
    rw [hred, hnm]

/-- C8, witness: the theorem at the one-pixel cube whose axis-0 samples are
`[1.0, NaN, 3.0]`. -/
theorem fcubeavg_spec_w :
    0 < ([[some (1 : ℚ)], [none], [some 3]].headD []).length
    ∧ (fcubeavg [[some 1], [none], [some 3]] []).1.get? 0
        = some (nanmean ([[some (1 : ℚ)], [none], [some 3]].map
            (fun plane => plane.getD 0 none))) :=
  ⟨by decide, (fcubeavg_spec [[some 1], [none], [some 3]] [] 0 (by decide)).1⟩

/-- C1, counterexample: at `oldres = 2`, `newres = 1` (with `CDELT2` giving
pixel size 60 arcmin and the positive stand-in `11/2` for `8·log 2`),
`fconvolve`'s kernel-size computation does not raise a domain error: it
returns normally, with the kernel size silently NaN. -/
theorem fconvolve_kernelsize_cex :
    fconvolve_kernelsize_sq (11 / 2) 2 1 1 = Except.ok none := by
  norm_num [fconvolve_kernelsize_sq, npSqrt_sq]

/-- C1 (amended): for every `newres < oldres` (resolutions nonnegative, any
positive value of the FWHM-to-sigma constant), the quantity under the square
root is negative, `np.sqrt` returns NaN without raising, and `fconvolve`'s
kernel size is silently NaN — no domain error is raised. -/
theorem fconvolve_silent_nan (c2 oldres newres cdelt2 : ℚ)
    (hc : 0 < c2) (h0 : 0 ≤ newres) (hlt : newres < oldres) :
    fconvolve_kernelsize_sq c2 oldres newres cdelt2 = Except.ok none := by
  have hsq : newres ^ 2 < oldres ^ 2 :=
    pow_lt_pow_left₀ hlt h0 (by norm_num)
  have harg : newres ^ 2 / c2 - oldres ^ 2 / c2 < 0 := by
    rw [div_sub_div_same]
    exact div_neg_of_neg_of_pos (by linarith) hc
  simp only [fconvolve_kernelsize_sq, npSqrt_sq]
  rw [if_pos harg]
  rfl

/-- C1, witness: the amended theorem at `oldres = 2`, `newres = 1`. -/
theorem fconvolve_silent_nan_w :
    ((0 : ℚ) < 11 / 2 ∧ (0 : ℚ) ≤ 1 ∧ (1 : ℚ) < 2)
    ∧ fconvolve_kernelsize_sq (11 / 2) 2 1 1 = Except.ok none :=
  ⟨⟨by norm_num, by norm_num, by norm_num⟩,
    fconvolve_silent_nan (11 / 2) 2 1 1 (by norm_num) (by norm_num)
      (by norm_num)⟩

end MiscFuncs
